import Mathlib

/-!
Verification of the IGVC-2023 navigation scripts (`DepthSensorTests.py`,
`NewDepthSensorTest.py`, `line_det_w_motor_controller.py`) against their
natural-language specification.

Scalar sensor readings in the scripts are Python / numpy floats, which can
be NaN or infinite.  They are embedded as `NFloat`: an exact rational
together with the three special values, with the IEEE comparison and
arithmetic rules the scripts rely on (NaN compares false to everything,
division of a nonzero finite by zero yields a signed infinity the way numpy
scalars do, and so on).  Rounding of finite arithmetic is not modelled: all
constants involved in the claims are exact at the relevant comparisons.
-/

/-- a Python / numpy floating-point value: NaN, plus or minus infinity, or a
finite value (embedded exactly as a rational). -/
inductive NFloat where
  | nan : NFloat
  | pinf : NFloat
  | ninf : NFloat
  | fin : ℚ → NFloat
deriving DecidableEq, Repr

namespace NFloat

/-- `math.isnan` on the embedded value. -/
def isNan : NFloat → Bool
  | nan => true
  | _ => false

/-- IEEE `<`: false whenever either side is NaN. -/
def lt : NFloat → NFloat → Bool
  | nan, _ => false
  | _, nan => false
  | pinf, _ => false
  | ninf, ninf => false
  | ninf, _ => true
  | fin _, pinf => true
  | fin _, ninf => false
  | fin a, fin b => decide (a < b)

/-- IEEE `>`. -/
def gt (a b : NFloat) : Bool := lt b a

/-- IEEE `<=`: `a < b` or `a = b`, false whenever either side is NaN. -/
def le (a b : NFloat) : Bool := lt a b || (a == b && !a.isNan)

/-- IEEE `>=`. -/
def ge (a b : NFloat) : Bool := le b a

/-- IEEE negation. -/
def neg : NFloat → NFloat
  | nan => nan
  | pinf => ninf
  | ninf => pinf
  | fin a => fin (-a)

/-- IEEE addition (opposite infinities give NaN). -/
def add : NFloat → NFloat → NFloat
  | nan, _ => nan
  | _, nan => nan
  | pinf, ninf => nan
  | ninf, pinf => nan
  | pinf, _ => pinf
  | _, pinf => pinf
  | ninf, _ => ninf
  | _, ninf => ninf
  | fin a, fin b => fin (a + b)

/-- IEEE subtraction. -/
def sub (a b : NFloat) : NFloat := add a (neg b)

/-- IEEE multiplication (infinity times zero gives NaN). -/
def mul : NFloat → NFloat → NFloat
  | nan, _ => nan
  | _, nan => nan
  | pinf, pinf => pinf
  | pinf, ninf => ninf
  | ninf, pinf => ninf
  | ninf, ninf => pinf
  | pinf, fin b => if 0 < b then pinf else if b < 0 then ninf else nan
  | fin a, pinf => if 0 < a then pinf else if a < 0 then ninf else nan
  | ninf, fin b => if 0 < b then ninf else if b < 0 then pinf else nan
  | fin a, ninf => if 0 < a then ninf else if a < 0 then pinf else nan
  | fin a, fin b => fin (a * b)

/-- IEEE / numpy-scalar division: a nonzero finite divided by zero yields a
signed infinity (numpy emits a warning, not an exception), `0/0` yields NaN,
and a finite divided by an infinity yields zero. -/
def div : NFloat → NFloat → NFloat
  | nan, _ => nan
  | _, nan => nan
  | pinf, pinf => nan
  | pinf, ninf => nan
  | ninf, pinf => nan
  | ninf, ninf => nan
  | pinf, fin b => if 0 ≤ b then pinf else ninf
  | ninf, fin b => if 0 ≤ b then ninf else pinf
  | fin _, pinf => fin 0
  | fin _, ninf => fin 0
  | fin a, fin b =>
      if b = 0 then (if 0 < a then pinf else if a < 0 then ninf else nan)
      else fin (a / b)

end NFloat

-- ======================================================================
-- Signal Conditioner: clipData (DepthSensorTests.py / NewDepthSensorTest.py)
-- ======================================================================

/-- `clipData(data_to_fix, lower_bound, upper_bound)`: reassigns values
outside the bounds (and NaN) to the closest bound.  Mirrors the Python body
`if data_to_fix > upper_bound or math.isnan(data_to_fix): return upper_bound
elif data_to_fix < lower_bound: return lower_bound` / `return data_to_fix`. -/
def clipData (data_to_fix : NFloat) (lower_bound upper_bound : ℚ) : NFloat :=
  if NFloat.gt data_to_fix (.fin upper_bound) || data_to_fix.isNan then .fin upper_bound
  else if NFloat.lt data_to_fix (.fin lower_bound) then .fin lower_bound
  else data_to_fix

/-- a clipped reading is always a finite value inside the bounds. -/
lemma clipData_fin (d : NFloat) (lower upper : ℚ) (hlu : lower ≤ upper) :
    ∃ q : ℚ, clipData d lower upper = .fin q ∧ lower ≤ q ∧ q ≤ upper := by
  cases d with
  | nan => exact ⟨upper, by simp [clipData, NFloat.isNan], hlu, le_refl _⟩
  | pinf =>
      refine ⟨upper, ?_, hlu, le_refl _⟩
      simp [clipData, NFloat.gt, NFloat.lt, NFloat.isNan]
  | ninf =>
      refine ⟨lower, ?_, le_refl _, hlu⟩
      simp [clipData, NFloat.gt, NFloat.lt, NFloat.isNan]
  | fin q =>
      by_cases hq : upper < q
      · exact ⟨upper, by simp [clipData, NFloat.gt, NFloat.lt, hq], hlu, le_refl _⟩
      · by_cases hq2 : q < lower
        · refine ⟨lower, ?_, le_refl _, hlu⟩
          simp [clipData, NFloat.gt, NFloat.lt, NFloat.isNan, hq, hq2]
        · refine ⟨q, ?_, le_of_not_lt hq2, le_of_not_lt hq⟩
          simp [clipData, NFloat.gt, NFloat.lt, NFloat.isNan, hq, hq2]

/-- C4.  For bounds `lower <= upper`, `clipData` returns the upper bound on a
NaN or too-large input, the lower bound on a too-small input, the input
unchanged otherwise; its result is a finite value inside the bounds, and it
is idempotent. -/
theorem clipData_spec (v : NFloat) (lower upper : ℚ) (hlu : lower ≤ upper) :
    (v.isNan = true → clipData v lower upper = .fin upper) ∧
    (∀ q : ℚ, v = .fin q → upper < q → clipData v lower upper = .fin upper) ∧
    (∀ q : ℚ, v = .fin q → q < lower → clipData v lower upper = .fin lower) ∧
    (∀ q : ℚ, v = .fin q → lower ≤ q → q ≤ upper → clipData v lower upper = v) ∧
    (∃ r : ℚ, clipData v lower upper = .fin r ∧ lower ≤ r ∧ r ≤ upper) ∧
    clipData (clipData v lower upper) lower upper = clipData v lower upper := by
  refine ⟨?_, ?_, ?_, ?_, clipData_fin v lower upper hlu, ?_⟩
  · intro h
    cases v <;> simp_all [clipData, NFloat.isNan]
  · rintro q rfl hq
    simp [clipData, NFloat.gt, NFloat.lt, hq]
  · rintro q rfl hq
    simp [clipData, NFloat.gt, NFloat.lt, NFloat.isNan, not_lt.mpr (le_of_lt hq), hq,
      not_lt.mpr (hq.le.trans hlu)]
  · rintro q rfl h1 h2
    simp [clipData, NFloat.gt, NFloat.lt, NFloat.isNan, not_lt.mpr h1, not_lt.mpr h2]
  · obtain ⟨r, hr, hlr, hru⟩ := clipData_fin v lower upper hlu
    rw [hr]
    simp [clipData, NFloat.gt, NFloat.lt, NFloat.isNan, not_lt.mpr hlr, not_lt.mpr hru]

/-- C4 witness: the clip specification applied at the concrete input
`v = 42`, bounds `0` and `300`. -/
theorem clipData_spec_witness :
    (NFloat.isNan (.fin 42) = true → clipData (.fin 42) 0 300 = .fin 300) ∧
    (∀ q : ℚ, NFloat.fin 42 = .fin q → 300 < q → clipData (.fin 42) 0 300 = .fin 300) ∧
    (∀ q : ℚ, NFloat.fin 42 = .fin q → q < 0 → clipData (.fin 42) 0 300 = .fin 0) ∧
    (∀ q : ℚ, NFloat.fin 42 = .fin q → 0 ≤ q → q ≤ 300 → clipData (.fin 42) 0 300 = .fin 42) ∧
    (∃ r : ℚ, clipData (.fin 42) 0 300 = .fin r ∧ 0 ≤ r ∧ r ≤ 300) ∧
    clipData (clipData (.fin 42) 0 300) 0 300 = clipData (.fin 42) 0 300 :=
  clipData_spec (.fin 42) 0 300 (by norm_num)

-- ======================================================================
-- Obstacle Locator: getCoordinatesOfCloseObstacle (both depth variants)
-- ======================================================================

/-- MIN_OBSTACLE_DEPTH (cm), the lower clip bound on depth values. -/
def MIN_OBSTACLE_DEPTH : ℚ := 0

/-- MAX_OBSTACLE_DEPTH (cm), the upper clip bound on depth values. -/
def MAX_OBSTACLE_DEPTH : ℚ := 300

/-- number of iterations an index-advancing `while` loop makes before its
scanned element first falsifies `p` (or the list ends): `advanceWhile p l` is
the final index of a loop that starts at the head of `l` and increments
while `p` holds. -/
def advanceWhile (p : NFloat → Bool) : List NFloat → ℕ
  | [] => 0
  | d :: rest => if p d then advanceWhile p rest + 1 else 0

/-- the conditioned depth profile: the center row of the depth image with
every reading passed through `clipData(_, MIN_OBSTACLE_DEPTH,
MAX_OBSTACLE_DEPTH)`, as both `getCoordinatesOfCloseObstacle` variants build
it. -/
def mkDepthList (row : List NFloat) : List NFloat :=
  row.map (fun d => clipData d MIN_OBSTACLE_DEPTH MAX_OBSTACLE_DEPTH)

/-- `leftBoundX` of both variants: starting at 0, advance while
`depthList[leftBoundX] >= MAX_OBSTACLE_DEPTH`. -/
def leftBoundX (depthList : List NFloat) : ℕ :=
  advanceWhile (fun d => NFloat.ge d (.fin MAX_OBSTACLE_DEPTH)) depthList

/-- `rightBoundX` of the `DepthSensorTests.py` variant: starting at
`leftBoundX + 1`, advance while `depthList[rightBoundX] <
MAX_OBSTACLE_DEPTH` (so it ends one past the occupied run). -/
def rightBoundXOld (depthList : List NFloat) : ℕ :=
  leftBoundX depthList + 1 +
    advanceWhile (fun d => NFloat.lt d (.fin MAX_OBSTACLE_DEPTH))
      (depthList.drop (leftBoundX depthList + 1))

/-- `rightBoundX` of the `NewDepthSensorTest.py` variant: starting at
`len(depthList) - 1`, decrement while `depthList[rightBoundX] >=
MAX_OBSTACLE_DEPTH`; equivalently, the length minus one minus the length of
the maximal all-clear suffix. -/
def rightBoundXNew (depthList : List NFloat) : ℤ :=
  (depthList.length : ℤ) - 1 -
    advanceWhile (fun d => NFloat.ge d (.fin MAX_OBSTACLE_DEPTH)) depthList.reverse

/-- `getCoordinatesOfCloseObstacle` (`DepthSensorTests.py`): the x-center of
the close obstacle on the center row, `none` when the conditioned row is
fully clear; `int((leftBoundX + rightBoundX) / 2)` floors since both bounds
are nonnegative. -/
def getCoordinatesOld (row : List NFloat) : Option ℕ :=
  let depthList := mkDepthList row
  if depthList.length ≤ leftBoundX depthList then none
  else some ((leftBoundX depthList + rightBoundXOld depthList) / 2)

/-- `getCoordinatesOfCloseObstacle` (`NewDepthSensorTest.py`): same left
scan, but the right bound scans backward from the row's right edge. -/
def getCoordinatesNew (row : List NFloat) : Option ℤ :=
  let depthList := mkDepthList row
  if depthList.length ≤ leftBoundX depthList then none
  else some (((leftBoundX depthList : ℤ) + rightBoundXNew depthList) / 2)

/-- `advanceWhile` stops exactly at the first index falsifying `p`: if every
element before `i` satisfies `p` and the element at `i` does not, the loop
ends at `i`. -/
lemma advanceWhile_eq (p : NFloat → Bool) :
    ∀ (l : List NFloat) (i : ℕ), i < l.length →
      (∀ j, j < i → ∀ d, l.get? j = some d → p d = true) →
      (∀ d, l.get? i = some d → p d = false) →
      advanceWhile p l = i := by
  intro l
  induction l with
  | nil => intro i hi _ _; simp at hi
  | cons d rest ih =>
      intro i hi hbefore hat
      cases i with
      | zero =>
          have hd := hat d (by rfl)
          simp [advanceWhile, hd]
      | succ n =>
          have hd := hbefore 0 (Nat.succ_pos n) d (by rfl)
          have hrest : advanceWhile p rest = n := by
            refine ih n (Nat.lt_of_succ_lt_succ (by simpa using hi)) ?_ ?_
            · intro j hj e he
              exact hbefore (j + 1) (Nat.succ_lt_succ hj) e (by simpa using he)
            · intro e he
              exact hat e (by simpa using he)
          simp [advanceWhile, hd, hrest]

/-- `advanceWhile` runs off the end when every element satisfies `p`. -/
lemma advanceWhile_eq_length (p : NFloat → Bool) :
    ∀ l : List NFloat, (∀ d ∈ l, p d = true) → advanceWhile p l = l.length := by
  intro l
  induction l with
  | nil => intro _; rfl
  | cons d rest ih =>
      intro h
      have hd := h d (List.mem_cons_self d rest)
      simp [advanceWhile, hd, ih (fun e he => h e (List.mem_cons_of_mem d he))]

/-- when `advanceWhile` does not run off the end, every scanned element
before the final index satisfies `p` and the element at it does not. -/
lemma advanceWhile_spec (p : NFloat → Bool) :
    ∀ l : List NFloat, advanceWhile p l < l.length →
      (∀ j, j < advanceWhile p l → ∀ d, l.get? j = some d → p d = true) ∧
      (∀ d, l.get? (advanceWhile p l) = some d → p d = false) := by
  intro l
  induction l with
  | nil => intro h; simp [advanceWhile] at h
  | cons d rest ih =>
      intro h
      by_cases hd : p d = true
      · have h2 : advanceWhile p rest < rest.length := by
          simpa [advanceWhile, hd, Nat.succ_lt_succ_iff] using h
        obtain ⟨hbef, hat⟩ := ih h2
        constructor
        · intro j hj e he
          cases j with
          | zero =>
              have hde : d = e := by simpa using he
              exact hde ▸ hd
          | succ n =>
              refine hbef n ?_ e (by simpa using he)
              have : n + 1 < advanceWhile p rest + 1 := by
                simpa [advanceWhile, hd] using hj
              omega
        · intro e he
          refine hat e ?_
          simpa [advanceWhile, hd] using he
      · have hd2 : p d = false := by simp_all
        constructor
        · intro j hj
          simp [advanceWhile, hd2] at hj
        · intro e he
          have hde : d = e := by simpa [advanceWhile, hd2] using he
          exact hde ▸ hd2

/-- comparison `>=` between finite embedded floats is the rational one. -/
lemma ge_fin (q c : ℚ) : NFloat.ge (.fin q) (.fin c) = decide (c ≤ q) := by
  by_cases h : c ≤ q
  · rcases lt_or_eq_of_le h with h2 | h2
    · simp [NFloat.ge, NFloat.le, NFloat.lt, h, h2]
    · subst h2
      simp [NFloat.ge, NFloat.le, NFloat.lt, NFloat.isNan, h]
  · have h2 : ¬ c < q := fun hc => h hc.le
    have h3 : ¬ c = q := fun hc => h (le_of_eq hc)
    simp [NFloat.ge, NFloat.le, NFloat.lt, NFloat.isNan, h, h2, h3]

/-- comparison `<` between finite embedded floats is the rational one. -/
lemma lt_fin (q c : ℚ) : NFloat.lt (.fin q) (.fin c) = decide (q < c) := rfl

/-- every entry of the conditioned profile is a finite value in
`[MIN_OBSTACLE_DEPTH, MAX_OBSTACLE_DEPTH]`. -/
lemma mkDepthList_entry (row : List NFloat) (j : ℕ) (d : NFloat)
    (h : (mkDepthList row).get? j = some d) :
    ∃ q : ℚ, d = .fin q ∧ 0 ≤ q ∧ q ≤ 300 := by
  rw [mkDepthList, List.get?_map] at h
  rcases hr : row.get? j with _ | a
  · rw [hr] at h; simp at h
  · rw [hr] at h
    simp only [Option.map_some'] at h
    obtain ⟨q, hq, h1, h2⟩ := clipData_fin a MIN_OBSTACLE_DEPTH MAX_OBSTACLE_DEPTH
      (by norm_num [MIN_OBSTACLE_DEPTH, MAX_OBSTACLE_DEPTH])
    refine ⟨q, ?_, by simpa [MIN_OBSTACLE_DEPTH] using h1,
      by simpa [MAX_OBSTACLE_DEPTH] using h2⟩
    rw [← Option.some.inj h, hq]

/-- an entry of the conditioned profile whose occupied test `< MAX` is false
passes the clear test `>= MAX`. -/
lemma entry_ge_of_not_lt (row : List NFloat) (j : ℕ) (d : NFloat)
    (h : (mkDepthList row).get? j = some d)
    (hlt : NFloat.lt d (.fin MAX_OBSTACLE_DEPTH) = false) :
    NFloat.ge d (.fin MAX_OBSTACLE_DEPTH) = true := by
  obtain ⟨q, rfl, _, _⟩ := mkDepthList_entry row j d h
  rw [lt_fin] at hlt
  rw [ge_fin]
  simp only [MAX_OBSTACLE_DEPTH] at hlt ⊢
  simp only [decide_eq_false_iff_not, not_lt] at hlt
  simpa using hlt

/-- C3 (amended).  On a conditioned depth profile with exactly one occupied
index `i`, the forward-scanning locator of `DepthSensorTests.py` finds
`leftBoundX = i` but its right bound is one past the obstacle,
`rightBoundX = i + 1` (not `i`), while the backward-scanning locator of
`NewDepthSensorTest.py` finds `leftBoundX = rightBoundX = i`; both report
the obstacle center `centerX = floor((leftBoundX + rightBoundX) / 2) = i`. -/
theorem singlePixelObstacle (row : List NFloat) (i : ℕ)
    (hi : i < row.length)
    (hlow : ∀ d, (mkDepthList row).get? i = some d →
      NFloat.lt d (.fin MAX_OBSTACLE_DEPTH) = true)
    (hother : ∀ j, j ≠ i → ∀ d, (mkDepthList row).get? j = some d →
      NFloat.lt d (.fin MAX_OBSTACLE_DEPTH) = false) :
    leftBoundX (mkDepthList row) = i ∧
    rightBoundXOld (mkDepthList row) = i + 1 ∧
    getCoordinatesOld row = some i ∧
    rightBoundXNew (mkDepthList row) = i ∧
    getCoordinatesNew row = some i := by
  have hlen : (mkDepthList row).length = row.length := by simp [mkDepthList]
  have hil : i < (mkDepthList row).length := hlen ▸ hi
  have hleft : leftBoundX (mkDepthList row) = i := by
    refine advanceWhile_eq _ (mkDepthList row) i hil ?_ ?_
    · intro j hj d hd
      exact entry_ge_of_not_lt row j d hd (hother j (Nat.ne_of_lt hj) d hd)
    · intro d hd
      obtain ⟨q, rfl, _, _⟩ := mkDepthList_entry row i d hd
      have := hlow _ hd
      rw [lt_fin] at this
      rw [ge_fin]
      simp only [decide_eq_true_eq] at this
      simpa using not_le.mpr this
  have hright_old : rightBoundXOld (mkDepthList row) = i + 1 := by
    rw [rightBoundXOld, hleft]
    rcases hdrop : (mkDepthList row).drop (i + 1) with _ | ⟨a, t⟩
    · simp [advanceWhile]
    · have ha : (mkDepthList row).get? (i + 1) = some a := by
        have : ((mkDepthList row).drop (i + 1)).get? 0 = some a := by
          rw [hdrop]; rfl
        rwa [List.get?_drop] at this
      have : NFloat.lt a (.fin MAX_OBSTACLE_DEPTH) = false :=
        hother (i + 1) (by omega) a ha
      simp [advanceWhile, this]
  have hcenter_old : getCoordinatesOld row = some i := by
    rw [getCoordinatesOld]
    simp only [hleft, hright_old]
    rw [if_neg (by omega)]
    congr 1
    omega
  have hat_i : ∀ d, (mkDepthList row).get? i = some d →
      NFloat.ge d (.fin MAX_OBSTACLE_DEPTH) = false := by
    intro d hd
    obtain ⟨q, rfl, _, _⟩ := mkDepthList_entry row i d hd
    have hq := hlow _ hd
    rw [lt_fin] at hq
    rw [ge_fin]
    simp only [decide_eq_true_eq] at hq
    simpa using not_le.mpr hq
  have hright_new : rightBoundXNew (mkDepthList row) = i := by
    rw [rightBoundXNew]
    have hrev : advanceWhile (fun d => NFloat.ge d (.fin MAX_OBSTACLE_DEPTH))
        (mkDepthList row).reverse = (mkDepthList row).length - 1 - i := by
      refine advanceWhile_eq _ _ _ ?_ ?_ ?_
      · rw [List.length_reverse]; omega
      · intro j hj d hd
        have hjl : j < (mkDepthList row).length := by omega
        rw [List.get?_reverse hjl] at hd
        exact entry_ge_of_not_lt row _ d hd (hother _ (by omega) d hd)
      · intro d hd
        have hjl : (mkDepthList row).length - 1 - i < (mkDepthList row).length := by omega
        rw [List.get?_reverse hjl] at hd
        have hidx : (mkDepthList row).length - 1 -
            ((mkDepthList row).length - 1 - i) = i := by omega
        rw [hidx] at hd
        exact hat_i d hd
    rw [hrev]
    omega
  refine ⟨hleft, hright_old, hcenter_old, hright_new, ?_⟩
  rw [getCoordinatesNew]
  simp only [hleft, hright_new]
  rw [if_neg (by omega)]
  congr 1
  omega

/-- C3 witness: the single-pixel-obstacle theorem applied at the concrete
profile `[300, 50, 300]` (already conditioned by the clip), whose only
occupied index is 1. -/
theorem singlePixelObstacle_witness :
    leftBoundX (mkDepthList [.fin 300, .fin 50, .fin 300]) = 1 ∧
    rightBoundXOld (mkDepthList [.fin 300, .fin 50, .fin 300]) = 1 + 1 ∧
    getCoordinatesOld [.fin 300, .fin 50, .fin 300] = some 1 ∧
    rightBoundXNew (mkDepthList [.fin 300, .fin 50, .fin 300]) = 1 ∧
    getCoordinatesNew [.fin 300, .fin 50, .fin 300] = some 1 := by
  refine singlePixelObstacle [.fin 300, .fin 50, .fin 300] 1 (by norm_num) ?_ ?_
  · intro d hd
    have h1 : (mkDepthList [NFloat.fin 300, .fin 50, .fin 300]).get? 1 =
        some (.fin 50) := by decide
    rw [h1] at hd
    have hd2 := Option.some.inj hd
    subst hd2
    decide
  · intro j hj d hd
    match j, hj with
    | 0, _ =>
        have h0 : (mkDepthList [NFloat.fin 300, .fin 50, .fin 300]).get? 0 =
            some (.fin 300) := by decide
        rw [h0] at hd
        have hd2 := Option.some.inj hd
        subst hd2
        decide
    | 1, hj => exact absurd rfl hj
    | 2, _ =>
        have h2 : (mkDepthList [NFloat.fin 300, .fin 50, .fin 300]).get? 2 =
            some (.fin 300) := by decide
        rw [h2] at hd
        have hd2 := Option.some.inj hd
        subst hd2
        decide
    | n + 3, _ =>
        have hn : (mkDepthList [NFloat.fin 300, .fin 50, .fin 300]).get? (n + 3) =
            none := by
          rw [List.get?_eq_none]
          simp [mkDepthList]
        rw [hn] at hd
        exact absurd hd (by simp)

/-- C3 counterexample: on the conditioned profile `[300, 50, 300]`, whose
single occupied pixel sits at index 1, the forward-scanning variant
(`DepthSensorTests.py`) computes `rightBoundX = 2` while `leftBoundX = 1`,
so the claimed `leftBound == rightBound` is false for it. -/
theorem singlePixelObstacle_counterexample :
    rightBoundXOld (mkDepthList [.fin 300, .fin 50, .fin 300]) = 2 ∧
    leftBoundX (mkDepthList [.fin 300, .fin 50, .fin 300]) = 1 ∧
    decide (rightBoundXOld (mkDepthList [.fin 300, .fin 50, .fin 300]) =
      leftBoundX (mkDepthList [.fin 300, .fin 50, .fin 300])) = false := by
  decide

-- ======================================================================
-- Hysteresis thresholds and maneuver loop guards (DepthSensorTests.py)
-- ======================================================================

/-- MIN_THRESHOLD_DISTANCE (cm), the approach loop's stop threshold (the
hysteresis low bound). -/
def MIN_THRESHOLD_DISTANCE : ℚ := 100

/-- MAX_THRESHOLD_DISTANCE (cm), the clear loop's go threshold (the
hysteresis high bound). -/
def MAX_THRESHOLD_DISTANCE : ℚ := 125

/-- guard of the `captureImagesUntilCloseToObstacle` while loop
(`DepthSensorTests.py`): `depthValue is None or depthValue >
MIN_THRESHOLD_DISTANCE`. -/
def approachLoopContinues : Option NFloat → Bool
  | none => true
  | some d => NFloat.gt d (.fin MIN_THRESHOLD_DISTANCE)

/-- guard of the `captureImagesUntilClear` while loop
(`DepthSensorTests.py`): `depthValue is None or depthValue <
MAX_THRESHOLD_DISTANCE`. -/
def clearLoopContinues : Option NFloat → Bool
  | none => true
  | some d => NFloat.lt d (.fin MAX_THRESHOLD_DISTANCE)

/-- exit index of a guarded poll loop fed its per-iteration readings: the
loop re-checks `guard` after each reading and exits at the first reading
falsifying it (`none` when it never exits within the list). -/
def loopStopIndex (guard : Option NFloat → Bool) : List (Option NFloat) → Option ℕ
  | [] => none
  | d :: rest =>
      if guard d then (loopStopIndex guard rest).map (· + 1) else some 0

/-- a guarded poll loop exits at index `i` exactly when the reading there
falsifies the guard and every earlier reading satisfies it. -/
lemma loopStopIndex_spec (guard : Option NFloat → Bool) :
    ∀ (l : List (Option NFloat)) (i : ℕ),
      loopStopIndex guard l = some i ↔
        ((∃ d, l.get? i = some d ∧ guard d = false) ∧
         ∀ j, j < i → ∀ d, l.get? j = some d → guard d = true) := by
  intro l
  induction l with
  | nil => intro i; simp [loopStopIndex]
  | cons d rest ih =>
      intro i
      by_cases hd : guard d = true
      · cases i with
        | zero =>
            constructor
            · intro h
              rw [loopStopIndex, if_pos hd] at h
              obtain ⟨a, _, ha⟩ := Option.map_eq_some'.mp h
              omega
            · rintro ⟨⟨e, he, hge⟩, _⟩
              have hde : d = e := Option.some.inj he
              rw [← hde, hd] at hge
              exact absurd hge (by simp)
        | succ n =>
            rw [loopStopIndex, if_pos hd]
            constructor
            · intro h
              obtain ⟨a, ha, ha2⟩ := Option.map_eq_some'.mp h
              have han : n = a := by omega
              subst han
              obtain ⟨h1, h2⟩ := (ih n).mp ha
              refine ⟨by simpa using h1, ?_⟩
              intro j hj e he
              cases j with
              | zero => exact (Option.some.inj he) ▸ hd
              | succ m => exact h2 m (by omega) e (by simpa using he)
            · rintro ⟨h1, h2⟩
              have h1b : ∃ e, rest.get? n = some e ∧ guard e = false := by simpa using h1
              have h2b : ∀ j, j < n → ∀ e, rest.get? j = some e → guard e = true := by
                intro j hj e he
                exact h2 (j + 1) (by omega) e (by simpa using he)
              rw [(ih n).mpr ⟨h1b, h2b⟩]
              rfl
      · have hd2 : guard d = false := by simp_all
        rw [loopStopIndex, if_neg (by simp [hd2])]
        cases i with
        | zero =>
            constructor
            · intro _
              refine ⟨⟨d, rfl, hd2⟩, ?_⟩
              intro j hj
              exact absurd hj (Nat.not_lt_zero j)
            · intro _
              rfl
        | succ n =>
            constructor
            · intro h
              exact absurd (Option.some.inj h) (by omega)
            · rintro ⟨_, h2⟩
              have := h2 0 (Nat.succ_pos n) d rfl
              rw [hd2] at this
              exact absurd this (by simp)

/-- C1.  The approach loop (hysteresis low bound 100) exits exactly at the
first reading at or below `MIN_THRESHOLD_DISTANCE`, never at an earlier one
even when it is already below `MAX_THRESHOLD_DISTANCE`; on the sequence
`[150, 140, 120, 95]` it exits at the fourth sample; a reading of 120 keeps
both the approach loop and the clear loop polling; and the two loops use
distinct thresholds with low < high. -/
theorem hysteresisGate_spec :
    (∀ (ds : List ℚ) (i : ℕ),
      loopStopIndex approachLoopContinues (ds.map (fun v => some (.fin v))) = some i ↔
        ((∃ v, ds.get? i = some v ∧ v ≤ MIN_THRESHOLD_DISTANCE) ∧
         ∀ j, j < i → ∀ v, ds.get? j = some v → MIN_THRESHOLD_DISTANCE < v)) ∧
    loopStopIndex approachLoopContinues
      [some (.fin 150), some (.fin 140), some (.fin 120), some (.fin 95)] = some 3 ∧
    approachLoopContinues (some (.fin 120)) = true ∧
    clearLoopContinues (some (.fin 120)) = true ∧
    MIN_THRESHOLD_DISTANCE < MAX_THRESHOLD_DISTANCE := by
  refine ⟨?_, by decide, by decide, by decide,
    by norm_num [MIN_THRESHOLD_DISTANCE, MAX_THRESHOLD_DISTANCE]⟩
  intro ds i
  rw [loopStopIndex_spec]
  have hguard : ∀ v : ℚ,
      approachLoopContinues (some (.fin v)) = decide (MIN_THRESHOLD_DISTANCE < v) :=
    fun v => rfl
  constructor
  · rintro ⟨⟨d, hd, hgd⟩, hbef⟩
    rw [List.get?_map] at hd
    obtain ⟨v, hv, rfl⟩ := Option.map_eq_some'.mp hd
    refine ⟨⟨v, hv, ?_⟩, ?_⟩
    · rw [hguard] at hgd
      simpa using hgd
    · intro j hj v2 hv2
      have hcont := hbef j hj (some (.fin v2)) (by rw [List.get?_map, hv2]; rfl)
      rw [hguard] at hcont
      simpa using hcont
  · rintro ⟨⟨v, hv, hle⟩, hbef⟩
    refine ⟨⟨some (.fin v), by rw [List.get?_map, hv]; rfl, ?_⟩, ?_⟩
    · rw [hguard]
      simpa using not_lt.mpr hle
    · intro j hj d hd
      rw [List.get?_map] at hd
      obtain ⟨v2, hv2, rfl⟩ := Option.map_eq_some'.mp hd
      rw [hguard]
      simpa using hbef j hj v2 hv2

-- ======================================================================
-- Capture pipeline and maneuver loops
-- ======================================================================

/-- `depth_matrix.get_value(x, centerY)` on the center row. -/
def sampleAt (row : List NFloat) (x : ℕ) : NFloat := (row.get? x).getD .nan

/-- `captureImageAndCheckForObstacle` (`DepthSensorTests.py`): a failed grab
logs the error and returns `depthValue = None`; a successful one locates the
close obstacle (falling back to the image-center pixel when none is found),
re-samples the depth there and conditions it with `clipData`. -/
def captureImageAndCheckForObstacle (frame : Option (List NFloat)) : Option NFloat :=
  frame.map (fun row =>
    let x := match getCoordinatesOld row with
      | none => row.length / 2
      | some cx => cx
    clipData (sampleAt row x) MIN_OBSTACLE_DEPTH MAX_OBSTACLE_DEPTH)

/-- THRESHOLD_DISTANCE (cm) of `NewDepthSensorTest.py`. -/
def THRESHOLD_DISTANCE : ℚ := 150

/-- the successful-grab body shared by both loops of
`NewDepthSensorTest.py`: locate (backward right-scan variant), fall back to
the image-center pixel, re-sample and condition. -/
def captureBodyNew (row : List NFloat) : NFloat :=
  let x := match getCoordinatesNew row with
    | none => row.length / 2
    | some cx => cx.toNat
  clipData (sampleAt row x) MIN_OBSTACLE_DEPTH MAX_OBSTACLE_DEPTH

/-- one iteration of `captureImagesUntilClear` (`NewDepthSensorTest.py`): a
failed grab logs the error and leaves `depthValue` unchanged; a successful
one replaces it with the fresh conditioned reading. -/
def newClearStep (depthValue : NFloat) (frame : Option (List NFloat)) : NFloat :=
  match frame with
  | some row => captureBodyNew row
  | none => depthValue

/-- exit index of the `captureImagesUntilClear` loop of
`NewDepthSensorTest.py` started from state `depthValue` and fed a list of
frames: the guard `depthValue < THRESHOLD_DISTANCE` is re-checked after
each iteration. -/
def runNewClear (depthValue : NFloat) : List (Option (List NFloat)) → Option ℕ
  | [] => none
  | f :: rest =>
      let d2 := newClearStep depthValue f
      if NFloat.lt d2 (.fin THRESHOLD_DISTANCE) then (runNewClear d2 rest).map (· + 1)
      else some 0

/-- C8.  A frame-grab failure never terminates a maneuver loop: in the
`DepthSensorTests.py` variant a failure yields `depthValue = None`, on which
both loop guards keep polling, so either loop can only exit at a
successfully grabbed frame; in the `NewDepthSensorTest.py` clear loop a
failure leaves the decision state unchanged, so that loop too can only exit
at a successfully grabbed frame. -/
theorem grabFailureNeverTerminates :
    (captureImageAndCheckForObstacle none = none ∧
     approachLoopContinues (captureImageAndCheckForObstacle none) = true ∧
     clearLoopContinues (captureImageAndCheckForObstacle none) = true) ∧
    (∀ (frames : List (Option (List NFloat))) (i : ℕ),
      loopStopIndex approachLoopContinues
        (frames.map captureImageAndCheckForObstacle) = some i →
      ∃ row, frames.get? i = some (some row)) ∧
    (∀ (frames : List (Option (List NFloat))) (i : ℕ),
      loopStopIndex clearLoopContinues
        (frames.map captureImageAndCheckForObstacle) = some i →
      ∃ row, frames.get? i = some (some row)) ∧
    (∀ d, newClearStep d none = d) ∧
    (∀ (d : NFloat) (frames : List (Option (List NFloat))) (i : ℕ),
      NFloat.lt d (.fin THRESHOLD_DISTANCE) = true →
      runNewClear d frames = some i →
      ∃ row, frames.get? i = some (some row)) := by
  refine ⟨⟨rfl, rfl, rfl⟩, ?_, ?_, fun d => rfl, ?_⟩
  · intro frames i h
    obtain ⟨⟨d, hd, hgd⟩, _⟩ := (loopStopIndex_spec _ _ _).mp h
    rw [List.get?_map] at hd
    obtain ⟨f, hf, hfd⟩ := Option.map_eq_some'.mp hd
    cases f with
    | none =>
        rw [← hfd] at hgd
        exact absurd hgd (by simp [captureImageAndCheckForObstacle, approachLoopContinues])
    | some row => exact ⟨row, hf⟩
  · intro frames i h
    obtain ⟨⟨d, hd, hgd⟩, _⟩ := (loopStopIndex_spec _ _ _).mp h
    rw [List.get?_map] at hd
    obtain ⟨f, hf, hfd⟩ := Option.map_eq_some'.mp hd
    cases f with
    | none =>
        rw [← hfd] at hgd
        exact absurd hgd (by simp [captureImageAndCheckForObstacle, clearLoopContinues])
    | some row => exact ⟨row, hf⟩
  · intro d frames
    induction frames generalizing d with
    | nil => intro i _ h; simp [runNewClear] at h
    | cons f rest ih =>
        intro i hlt h
        rw [runNewClear] at h
        by_cases hguard : NFloat.lt (newClearStep d f) (.fin THRESHOLD_DISTANCE) = true
        · rw [if_pos hguard] at h
          obtain ⟨n, hn, hni⟩ := Option.map_eq_some'.mp h
          obtain ⟨row, hrow⟩ := ih (newClearStep d f) n hguard hn
          refine ⟨row, ?_⟩
          have hin : i = n + 1 := by omega
          subst hin
          simpa using hrow
        · rw [if_neg hguard] at h
          cases f with
          | none =>
              rw [newClearStep] at hguard
              exact absurd hlt hguard
          | some row =>
              have hi0 : (0 : ℕ) = i := Option.some.inj h
              subst hi0
              exact ⟨row, rfl⟩

/-- the scan index never passes the end of the list. -/
lemma advanceWhile_le_length (p : NFloat → Bool) :
    ∀ l : List NFloat, advanceWhile p l ≤ l.length := by
  intro l
  induction l with
  | nil => exact le_refl 0
  | cons d rest ih =>
      by_cases hd : p d = true
      · simpa [advanceWhile, hd] using Nat.succ_le_succ ih
      · have hd2 : p d = false := by simp_all
        simp [advanceWhile, hd2]

/-- a scan that runs off the end saw only elements satisfying `p`. -/
lemma advanceWhile_all (p : NFloat → Bool) :
    ∀ l : List NFloat, advanceWhile p l = l.length → ∀ d ∈ l, p d = true := by
  intro l
  induction l with
  | nil => intro _ d hd; simp at hd
  | cons e rest ih =>
      intro h d hd
      by_cases he : p e = true
      · rw [advanceWhile, if_pos he] at h
        rcases List.mem_cons.mp hd with rfl | hmem
        · exact he
        · exact ih (by simpa using h) d hmem
      · have he2 : p e = false := by simp_all
        rw [advanceWhile, if_neg (by simp [he2])] at h
        simp at h

/-- C10 (amended).  In an iteration whose locator finds no obstacle region,
both variants do fall back to sampling the image-center pixel and
conditioning it with the clip — but that conditioned center reading then
necessarily equals `MAX_OBSTACLE_DEPTH` (the locator returns `None` only
when the whole conditioned center row sits at the far bound), so the
approach loops keep polling on such an iteration and can never stop on it,
while the clear loop's go test does fire on it. -/
theorem locatorNoneCenterFallback (row : List NFloat) (hrow : row ≠ [])
    (hnone : getCoordinatesOld row = none) :
    captureImageAndCheckForObstacle (some row) =
      some (clipData (sampleAt row (row.length / 2))
        MIN_OBSTACLE_DEPTH MAX_OBSTACLE_DEPTH) ∧
    captureImageAndCheckForObstacle (some row) = some (.fin MAX_OBSTACLE_DEPTH) ∧
    approachLoopContinues (captureImageAndCheckForObstacle (some row)) = true ∧
    clearLoopContinues (captureImageAndCheckForObstacle (some row)) = false ∧
    getCoordinatesNew row = none ∧
    captureBodyNew row = .fin MAX_OBSTACLE_DEPTH ∧
    NFloat.gt (captureBodyNew row) (.fin THRESHOLD_DISTANCE) = true := by
  have hlen0 : 0 < row.length := List.length_pos.mpr hrow
  have hfull : (mkDepthList row).length ≤ leftBoundX (mkDepthList row) := by
    by_contra hc
    simp [getCoordinatesOld, hc] at hnone
  have hall : ∀ d ∈ mkDepthList row,
      NFloat.ge d (.fin MAX_OBSTACLE_DEPTH) = true := by
    refine advanceWhile_all _ _ ?_
    rw [leftBoundX] at hfull
    exact le_antisymm (advanceWhile_le_length _ _) hfull
  have hclip : ∀ x, x < row.length →
      clipData (sampleAt row x) MIN_OBSTACLE_DEPTH MAX_OBSTACLE_DEPTH =
        .fin MAX_OBSTACLE_DEPTH := by
    intro x hx
    rcases hr : row.get? x with _ | a
    · rw [List.get?_eq_none] at hr
      omega
    · have hsample : sampleAt row x = a := by rw [sampleAt, hr]; rfl
      have hmem : clipData a MIN_OBSTACLE_DEPTH MAX_OBSTACLE_DEPTH ∈ mkDepthList row := by
        rw [mkDepthList]
        exact List.mem_map_of_mem _ (List.get?_mem hr)
      have hge := hall _ hmem
      obtain ⟨q, hq, _, hq3⟩ := clipData_fin a MIN_OBSTACLE_DEPTH MAX_OBSTACLE_DEPTH
        (by norm_num [MIN_OBSTACLE_DEPTH, MAX_OBSTACLE_DEPTH])
      rw [hsample, hq]
      rw [hq, ge_fin] at hge
      simp only [decide_eq_true_eq] at hge
      rw [le_antisymm hq3 hge]
  have hhalf : row.length / 2 < row.length := Nat.div_lt_self hlen0 one_lt_two
  have h1 : captureImageAndCheckForObstacle (some row) =
      some (clipData (sampleAt row (row.length / 2))
        MIN_OBSTACLE_DEPTH MAX_OBSTACLE_DEPTH) := by
    simp [captureImageAndCheckForObstacle, hnone]
  have h2 : captureImageAndCheckForObstacle (some row) =
      some (.fin MAX_OBSTACLE_DEPTH) := by
    rw [h1, hclip _ hhalf]
  have hnone2 : getCoordinatesNew row = none := by
    simp [getCoordinatesNew, hfull]
  have hbody : captureBodyNew row = .fin MAX_OBSTACLE_DEPTH := by
    rw [captureBodyNew, hnone2]
    exact hclip _ hhalf
  refine ⟨h1, h2, ?_, ?_, hnone2, hbody, ?_⟩
  · rw [h2]; decide
  · rw [h2]; decide
  · rw [hbody]; decide

/-- C10 witness: the fallback theorem applied at the concrete fully-clear
raw row `[NaN, +inf, 400]`, on which the locator finds nothing and the
conditioned center reading is exactly 300. -/
theorem locatorNoneCenterFallback_witness :
    captureImageAndCheckForObstacle (some [.nan, .pinf, .fin 400]) =
      some (clipData (sampleAt [.nan, .pinf, .fin 400] (([NFloat.nan, .pinf, .fin 400]).length / 2))
        MIN_OBSTACLE_DEPTH MAX_OBSTACLE_DEPTH) ∧
    captureImageAndCheckForObstacle (some [.nan, .pinf, .fin 400]) =
      some (.fin MAX_OBSTACLE_DEPTH) ∧
    approachLoopContinues
      (captureImageAndCheckForObstacle (some [.nan, .pinf, .fin 400])) = true ∧
    clearLoopContinues
      (captureImageAndCheckForObstacle (some [.nan, .pinf, .fin 400])) = false ∧
    getCoordinatesNew [.nan, .pinf, .fin 400] = none ∧
    captureBodyNew [.nan, .pinf, .fin 400] = .fin MAX_OBSTACLE_DEPTH ∧
    NFloat.gt (captureBodyNew [.nan, .pinf, .fin 400]) (.fin THRESHOLD_DISTANCE) = true :=
  locatorNoneCenterFallback [.nan, .pinf, .fin 400] (by decide) (by decide)

/-- C10 counterexample: a close center-pixel reading and a `None` locator
result cannot coexist.  With the raw center row `[300, 50, 300]` the center
pixel reads 50 (close) and the locator returns an obstacle region, not
`None`; with the fully-clear row `[400, 400, 400]` the locator does return
`None` but the conditioned center reading is 300, on which the approach stop
test does not fire. -/
theorem locatorNoneCenterFallback_counterexample :
    getCoordinatesOld [.fin 300, .fin 50, .fin 300] = some 1 ∧
    captureImageAndCheckForObstacle (some [.fin 300, .fin 50, .fin 300]) =
      some (.fin 50) ∧
    approachLoopContinues (some (.fin 50)) = false ∧
    getCoordinatesOld [.fin 400, .fin 400, .fin 400] = none ∧
    captureImageAndCheckForObstacle (some [.fin 400, .fin 400, .fin 400]) =
      some (.fin 300) ∧
    approachLoopContinues (some (.fin 300)) = true := by
  decide

-- ======================================================================
-- Command Throttler: sendMotorCommand (line_det_w_motor_controller.py)
-- ======================================================================

/-- ONE_SECOND_DELAY (ns). -/
def ONE_SECOND_DELAY : ℤ := 1000000000

/-- the minimum inter-command interval in nanoseconds,
`ONE_SECOND_DELAY * 0.1` (the binary64 product is exactly 100000000). -/
def COMMAND_MIN_INTERVAL : ℤ := 100000000

/-- the five command strings `sendMotorCommand` dispatches to the motor. -/
def recognizedCommands : List String := ["up", "down", "left", "right", "stop"]

/-- `sendMotorCommand(motorObj, command, lastCommandTime)`: when
`time.time_ns() > lastCommandTime + ONE_SECOND_DELAY*0.1` it records the new
send time and dispatches the motor command matching `command`; otherwise it
does nothing.  Returns the (possibly updated) `lastCommandTime`, paired here
with whether a motor command was dispatched. -/
def sendMotorCommand (now lastCommandTime : ℤ) (command : String) : ℤ × Bool :=
  if lastCommandTime + COMMAND_MIN_INTERVAL < now then
    (now, recognizedCommands.contains command)
  else (lastCommandTime, false)

/-- send decisions of a sequence of `sendMotorCommand` calls at the given
times, threading `lastCommandTime` through (command fixed to `"up"`). -/
def sendTrace (lastCommandTime : ℤ) : List ℤ → List Bool
  | [] => []
  | t :: rest =>
      let r := sendMotorCommand t lastCommandTime "up"
      r.2 :: sendTrace r.1 rest

/-- C2 (amended).  A command is dispatched (and `lastCommandTime` updated to
`now`) precisely when `now - lastCommandTime` strictly exceeds the 100 ms
interval — the comparison in the source is strict, not `>=`; consequently,
with `lastCommandTime` initially more than the interval in the past, calls
at t = 0, 30, 60, 105, 110 ms send only at t = 0 and t = 105. -/
theorem sendMotorCommand_spec :
    (∀ (now last : ℤ) (cmd : String),
      ((sendMotorCommand now last cmd).2 = true ↔
        (COMMAND_MIN_INTERVAL < now - last ∧ recognizedCommands.contains cmd = true)) ∧
      (COMMAND_MIN_INTERVAL < now - last → (sendMotorCommand now last cmd).1 = now) ∧
      (now - last ≤ COMMAND_MIN_INTERVAL → (sendMotorCommand now last cmd).1 = last)) ∧
    (∀ last0 : ℤ, last0 + COMMAND_MIN_INTERVAL < 0 →
      sendTrace last0 [0, 30000000, 60000000, 105000000, 110000000] =
        [true, false, false, true, false]) := by
  constructor
  · intro now last cmd
    by_cases h : last + COMMAND_MIN_INTERVAL < now
    · refine ⟨?_, ?_, ?_⟩
      · rw [sendMotorCommand, if_pos h]
        exact ⟨fun h2 => ⟨by omega, h2⟩, fun h2 => h2.2⟩
      · intro _
        rw [sendMotorCommand, if_pos h]
      · intro h2
        exact absurd h (by omega)
    · refine ⟨?_, ?_, ?_⟩
      · rw [sendMotorCommand, if_neg h]
        constructor
        · intro h2
          exact absurd h2 (by simp)
        · rintro ⟨h1, _⟩
          exact absurd (by omega : last + COMMAND_MIN_INTERVAL < now) h
      · intro h2
        exact absurd (by omega : last + COMMAND_MIN_INTERVAL < now) h
      · intro _
        rw [sendMotorCommand, if_neg h]
  · intro last0 h0
    have hfirst : sendMotorCommand 0 last0 "up" = (0, true) := by
      rw [sendMotorCommand, if_pos (by omega : last0 + COMMAND_MIN_INTERVAL < 0)]
      decide
    simp only [sendTrace, hfirst]
    decide

/-- C2 witness: the throttler specification applied at `now = 200000000`,
`lastCommandTime = 0`, command `"up"` (interval strictly exceeded, so the
call dispatches), and at the trace's initial `lastCommandTime =
-100000001`. -/
theorem sendMotorCommand_spec_witness :
    ((sendMotorCommand 200000000 0 "up").2 = true ↔
      (COMMAND_MIN_INTERVAL < 200000000 - 0 ∧
        recognizedCommands.contains "up" = true)) ∧
    (COMMAND_MIN_INTERVAL < 200000000 - 0 →
      (sendMotorCommand 200000000 0 "up").1 = 200000000) ∧
    ((200000000 : ℤ) - 0 ≤ COMMAND_MIN_INTERVAL →
      (sendMotorCommand 200000000 0 "up").1 = 0) ∧
    sendTrace (-100000001) [0, 30000000, 60000000, 105000000, 110000000] =
      [true, false, false, true, false] := by
  obtain ⟨h1, h2⟩ := sendMotorCommand_spec
  obtain ⟨a, b, c⟩ := h1 200000000 0 "up"
  exact ⟨a, b, c, h2 (-100000001) (by decide)⟩

/-- C2 counterexample: at exactly `now - lastCommandTime = 100 ms` the code
does not send (its comparison is strict), and with `lastCommandTime` exactly
100 ms in the past the five-call trace sends only at t = 30 ms — not at
t = 0 and t = 105 as claimed. -/
theorem sendMotorCommand_counterexample :
    sendMotorCommand 100000000 0 "up" = (0, false) ∧
    sendTrace (-100000000) [0, 30000000, 60000000, 105000000, 110000000] =
      [false, true, false, false, false] := by
  decide

-- ======================================================================
-- Navigation Sequencer: moveForwardAndStopTest guard (DepthSensorTests.py)
-- ======================================================================

/-- guard of `moveForwardAndStopTest` (`DepthSensorTests.py`): the function
returns early, printing a testing error, when `multiprocessing.cpu_count()
>= 2`, and only otherwise starts the background forward-sender and runs the
dual-task maneuver. -/
def moveForwardAndStopTestRunsManeuver (cpuCount : ℕ) : Bool :=
  !(decide (2 ≤ cpuCount))

/-- C9: the cpu-count guard in the source is inverted — on a machine with 2
(or 4) CPUs the dual-task maneuver is skipped with a testing error, while on
a single-core machine it runs. -/
theorem moveForwardAndStopTest_guard :
    moveForwardAndStopTestRunsManeuver 2 = false ∧
    moveForwardAndStopTestRunsManeuver 4 = false ∧
    moveForwardAndStopTestRunsManeuver 1 = true := by
  decide

-- ======================================================================
-- Lane Estimator: draw_lines (line_det_w_motor_controller.py)
-- ======================================================================

/-- a raw Hough line segment `(x1, y1, x2, y2)`; the coordinates are numpy
int32 scalars (integer pixel positions, embedded here as exact rationals),
and their division promotes to numpy floats. -/
structure LineSeg where
  x1 : ℚ
  y1 : ℚ
  x2 : ℚ
  y2 : ℚ
deriving DecidableEq, Repr

/-- the four module-level trailing lists of `draw_lines`: `rightSlope`,
`rightIntercept`, `leftSlope`, `leftIntercept`. -/
structure Buffers where
  rightSlope : List NFloat
  rightIntercept : List NFloat
  leftSlope : List NFloat
  leftIntercept : List NFloat
deriving DecidableEq, Repr

/-- the module-level state at process start: four empty lists. -/
def emptyBuffers : Buffers := ⟨[], [], [], []⟩

/-- `slope = (y1-y2)/(x1-x2)` with numpy-scalar semantics: a vertical
segment (`x1 == x2`) divides by zero and yields a signed infinity or NaN
(with a warning) instead of raising. -/
def segSlope (s : LineSeg) : NFloat :=
  NFloat.div (.fin (s.y1 - s.y2)) (.fin (s.x1 - s.x2))

/-- the classification body of `draw_lines` for one segment: append the
slope and the y-intercept `y2 - slope*x2` to the right lists when
`slope > 0.3` and `x1 > 500`, to the left lists when `slope < -0.3` and
`x1 < 600`, and discard otherwise. -/
def ingestSegment (b : Buffers) (s : LineSeg) : Buffers :=
  let slope := segSlope s
  if NFloat.gt slope (.fin (3/10)) then
    if 500 < s.x1 then
      let yintercept := NFloat.sub (.fin s.y2) (NFloat.mul slope (.fin s.x2))
      { b with rightSlope := b.rightSlope ++ [slope],
               rightIntercept := b.rightIntercept ++ [yintercept] }
    else b
  else if NFloat.lt slope (.fin (-(3/10))) then
    if s.x1 < 600 then
      let yintercept := NFloat.sub (.fin s.y2) (NFloat.mul slope (.fin s.x2))
      { b with leftSlope := b.leftSlope ++ [slope],
               leftIntercept := b.leftIntercept ++ [yintercept] }
    else b
  else b

/-- the classification loop of `draw_lines` over one frame's segments. -/
def ingestSegments (b : Buffers) (segs : List LineSeg) : Buffers :=
  segs.foldl ingestSegment b

/-- whether `draw_lines` appends a segment to the left lists. -/
def isLeftSample (s : LineSeg) : Bool :=
  !NFloat.gt (segSlope s) (.fin (3/10)) &&
    (NFloat.lt (segSlope s) (.fin (-(3/10))) && decide (s.x1 < 600))

/-- whether `draw_lines` appends a segment to the right lists. -/
def isRightSample (s : LineSeg) : Bool :=
  NFloat.gt (segSlope s) (.fin (3/10)) && decide (500 < s.x1)

/-- a Python-level numeric exception of the estimate block: `int(nan)`
raises ValueError (which the block catches), `int(inf)` raises
OverflowError (which it does not). -/
inductive PyErr where
  | valueError : PyErr
  | overflowError : PyErr
deriving DecidableEq, Repr

/-- Python `int()` on a float: truncation toward zero, ValueError on NaN,
OverflowError on an infinity. -/
def pyInt : NFloat → Except PyErr ℤ
  | .nan => .error .valueError
  | .pinf => .error .overflowError
  | .ninf => .error .overflowError
  | .fin q => .ok (if 0 ≤ q then Int.floor q else Int.ceil q)

/-- the Python slice `l[-30:]`: the at most 30 most recent samples. -/
def last30 (l : List NFloat) : List NFloat := l.drop (l.length - 30)

/-- `np.mean`: the sum divided by the length; on the empty list this is
`0/0 = NaN` (numpy warns and returns NaN). -/
def npMean (l : List NFloat) : NFloat :=
  NFloat.div (l.foldl NFloat.add (.fin 0)) (.fin l.length)

/-- one boundary x-position `int((y_ref - avgIntercept) / avgSlope)`. -/
def lineX (yref avgIntercept avgSlope : NFloat) : Except PyErr ℤ :=
  pyInt (NFloat.div (NFloat.sub yref avgIntercept) avgSlope)

/-- the try-block of `draw_lines` as a function of the four averaged
values: it computes `left_line_x1`, `left_line_x2`, `right_line_x1`,
`right_line_x2` in that order; a ValueError anywhere exits the block
keeping the values assigned so far (`left_line_x1` and `right_line_x1`
start as `None`); any other exception propagates.  Returns
`[left_line_x1, right_line_x1]`. -/
def estimateCore (leftavgSlope leftavgIntercept rightavgSlope rightavgIntercept : NFloat)
    (imgHeight : ℚ) : Except PyErr (Option ℤ × Option ℤ) :=
  match lineX (.fin (65/100 * imgHeight)) leftavgIntercept leftavgSlope with
  | .error .valueError => .ok (none, none)
  | .error e => .error e
  | .ok l1 =>
    match lineX (.fin imgHeight) leftavgIntercept leftavgSlope with
    | .error .valueError => .ok (some l1, none)
    | .error e => .error e
    | .ok _ =>
      match lineX (.fin (65/100 * imgHeight)) rightavgIntercept rightavgSlope with
      | .error .valueError => .ok (some l1, none)
      | .error e => .error e
      | .ok r1 =>
        match lineX (.fin imgHeight) rightavgIntercept rightavgSlope with
        | .error .valueError => .ok (some l1, some r1)
        | .error e => .error e
        | .ok _ => .ok (some l1, some r1)

/-- the estimate part of `draw_lines`: the four trailing-window means
(`np.mean(...[-30:])`) fed to the try-block. -/
def drawLinesEstimate (b : Buffers) (imgHeight : ℚ) :
    Except PyErr (Option ℤ × Option ℤ) :=
  estimateCore (npMean (last30 b.leftSlope)) (npMean (last30 b.leftIntercept))
    (npMean (last30 b.rightSlope)) (npMean (last30 b.rightIntercept)) imgHeight

/-- one classification step appends exactly one sample to the matching
side's slope list and leaves the other side's untouched. -/
lemma ingestSegment_lengths (b : Buffers) (s : LineSeg) :
    (ingestSegment b s).leftSlope.length =
      b.leftSlope.length + (if isLeftSample s then 1 else 0) ∧
    (ingestSegment b s).rightSlope.length =
      b.rightSlope.length + (if isRightSample s then 1 else 0) := by
  by_cases h1 : NFloat.gt (segSlope s) (.fin (3/10)) = true
  · by_cases h2 : (500 : ℚ) < s.x1
    · constructor <;> simp [ingestSegment, isLeftSample, isRightSample, h1, h2]
    · constructor <;> simp [ingestSegment, isLeftSample, isRightSample, h1, h2]
  · have h1f : NFloat.gt (segSlope s) (.fin (3/10)) = false := by simp_all
    by_cases h3 : NFloat.lt (segSlope s) (.fin (-(3/10))) = true
    · by_cases h4 : s.x1 < 600
      · constructor <;> simp [ingestSegment, isLeftSample, isRightSample, h1f, h3, h4]
      · constructor <;> simp [ingestSegment, isLeftSample, isRightSample, h1f, h3, h4]
    · have h3f : NFloat.lt (segSlope s) (.fin (-(3/10))) = false := by simp_all
      constructor <;> simp [ingestSegment, isLeftSample, isRightSample, h1f, h3f]

/-- the classification loop appends every matching sample and evicts
nothing: buffer growth is exactly the number of classified segments. -/
lemma ingestSegments_lengths :
    ∀ (segs : List LineSeg) (b : Buffers),
      (ingestSegments b segs).leftSlope.length =
        b.leftSlope.length + (segs.filter isLeftSample).length ∧
      (ingestSegments b segs).rightSlope.length =
        b.rightSlope.length + (segs.filter isRightSample).length := by
  intro segs
  induction segs with
  | nil => intro b; simp [ingestSegments]
  | cons s rest ih =>
      intro b
      have hstep := ingestSegment_lengths b s
      have hrest := ih (ingestSegment b s)
      have hsegs : ingestSegments b (s :: rest) = ingestSegments (ingestSegment b s) rest := by
        simp [ingestSegments]
      constructor
      · rw [hsegs, hrest.1, hstep.1, List.filter_cons]
        by_cases hp : isLeftSample s = true
        · simp only [hp, if_true]
          simp
          omega
        · have hpf : isLeftSample s = false := by simp_all
          simp [hpf]
      · rw [hsegs, hrest.2, hstep.2, List.filter_cons]
        by_cases hp : isRightSample s = true
        · simp only [hp, if_true]
          simp
          omega
        · have hpf : isRightSample s = false := by simp_all
          simp [hpf]

/-- the trailing slice `[-30:]` is idempotent. -/
lemma last30_idem (l : List NFloat) : last30 (last30 l) = last30 l := by
  simp only [last30, List.length_drop]
  have h : l.length - (l.length - 30) - 30 = 0 := by omega
  rw [h, List.drop_zero]

/-- C5 (amended).  The left/right sample lists are unbounded and
append-only: after any ingests each list holds every sample ever classified
to its side (no FIFO eviction — 35 left-classified ingests leave 35 stored
samples, not 30); the 30-sample bounding happens only at estimate time,
where each mean reads the `[-30:]` trailing slice, so every estimate is
computed only from the 30 most recent samples of each side. -/
theorem laneBufferRetention :
    (∀ (b : Buffers) (segs : List LineSeg),
      (ingestSegments b segs).leftSlope.length =
        b.leftSlope.length + (segs.filter isLeftSample).length ∧
      (ingestSegments b segs).rightSlope.length =
        b.rightSlope.length + (segs.filter isRightSample).length) ∧
    (∀ (b : Buffers) (h : ℚ),
      drawLinesEstimate b h =
        drawLinesEstimate ⟨last30 b.rightSlope, last30 b.rightIntercept,
          last30 b.leftSlope, last30 b.leftIntercept⟩ h) := by
  refine ⟨fun b segs => ingestSegments_lengths segs b, ?_⟩
  intro b h
  rw [drawLinesEstimate, drawLinesEstimate]
  simp only [last30_idem]

/-- C5 counterexample: 35 ingests of a left-classified segment leave 35
samples in the left slope list — the claimed 30-sample cap with FIFO
eviction does not exist in the stored lists. -/
theorem laneBufferRetention_counterexample :
    isLeftSample ⟨0, 10, 10, 0⟩ = true ∧
    (ingestSegments emptyBuffers
      (List.replicate 35 ⟨0, 10, 10, 0⟩)).leftSlope.length = 35 ∧
    decide ((ingestSegments emptyBuffers
      (List.replicate 35 ⟨0, 10, 10, 0⟩)).leftSlope.length ≤ 30) = false := by
  have hleft : isLeftSample ⟨0, 10, 10, 0⟩ = true := by
    norm_num [isLeftSample, segSlope, NFloat.div, NFloat.gt, NFloat.lt]
  have hfil : (List.replicate 35 (⟨0, 10, 10, 0⟩ : LineSeg)).filter isLeftSample =
      List.replicate 35 ⟨0, 10, 10, 0⟩ := by
    refine List.filter_eq_self.mpr ?_
    intro a ha
    rw [List.eq_of_mem_replicate ha]
    exact hleft
  have h35 : (ingestSegments emptyBuffers
      (List.replicate 35 ⟨0, 10, 10, 0⟩)).leftSlope.length = 35 := by
    rw [(ingestSegments_lengths _ _).1, hfil]
    simp [emptyBuffers]
  refine ⟨hleft, h35, ?_⟩
  rw [h35]
  decide

/-- C6: the slope computation of `draw_lines` is unguarded — the vertical
segment `(501, 10, 501, 0)` divides by zero; under the numpy scalar
semantics of the Hough output this yields slope `+inf`, which passes
`slope > 0.3` and `x1 > 500` and is appended (with intercept `-inf`) to the
right lists instead of being discarded. -/
theorem verticalSegmentAppended :
    segSlope ⟨501, 10, 501, 0⟩ = .pinf ∧
    (ingestSegment emptyBuffers ⟨501, 10, 501, 0⟩).rightSlope = [.pinf] ∧
    (ingestSegment emptyBuffers ⟨501, 10, 501, 0⟩).rightIntercept = [.ninf] ∧
    (ingestSegment emptyBuffers ⟨501, 10, 501, 0⟩).leftSlope = [] := by
  refine ⟨?_, ?_, ?_, ?_⟩ <;>
    norm_num [ingestSegment, segSlope, NFloat.div, NFloat.gt, NFloat.lt, NFloat.sub,
      NFloat.mul, NFloat.add, NFloat.neg, emptyBuffers]

/-- subtracting NaN yields NaN. -/
lemma nf_sub_nan (a : NFloat) : NFloat.sub a .nan = .nan := by cases a <;> rfl

/-- NaN divided by anything yields NaN. -/
lemma nf_nan_div (b : NFloat) : NFloat.div .nan b = .nan := by cases b <;> rfl

/-- dividing by NaN yields NaN. -/
lemma nf_div_nan (a : NFloat) : NFloat.div a .nan = .nan := by cases a <;> rfl

/-- a NaN averaged slope makes the boundary computation raise ValueError. -/
lemma lineX_slope_nan (yref lai : NFloat) : lineX yref lai .nan = .error .valueError := by
  rw [lineX, nf_div_nan]
  rfl

/-- a NaN averaged intercept makes the boundary computation raise
ValueError. -/
lemma lineX_intercept_nan (yref slope : NFloat) :
    lineX yref .nan slope = .error .valueError := by
  rw [lineX, nf_sub_nan, nf_nan_div]
  rfl

/-- summing finitely many finite values from a finite start stays finite. -/
lemma foldl_add_fin :
    ∀ (l : List NFloat) (a : ℚ), (∀ s ∈ l, ∃ q : ℚ, s = .fin q) →
      ∃ m : ℚ, l.foldl NFloat.add (.fin a) = .fin m := by
  intro l
  induction l with
  | nil => intro a _; exact ⟨a, rfl⟩
  | cons s rest ih =>
      intro a hall
      obtain ⟨q, rfl⟩ := hall s (List.mem_cons_self s rest)
      have hadd : NFloat.add (.fin a) (.fin q) = .fin (a + q) := rfl
      obtain ⟨m, hm⟩ := ih (a + q) (fun t ht => hall t (List.mem_cons_of_mem _ ht))
      exact ⟨m, by simpa [List.foldl_cons, hadd] using hm⟩

/-- summing values all below `-3/10` decreases the total by at least
`3/10` per element. -/
lemma foldl_add_neg :
    ∀ (l : List NFloat) (a : ℚ),
      (∀ s ∈ l, ∃ q : ℚ, s = .fin q ∧ q < -(3/10)) →
      ∃ m : ℚ, l.foldl NFloat.add (.fin a) = .fin m ∧
        m ≤ a - (3/10) * l.length := by
  intro l
  induction l with
  | nil => intro a _; exact ⟨a, rfl, by simp⟩
  | cons s rest ih =>
      intro a hall
      obtain ⟨q, rfl, hq⟩ := hall s (List.mem_cons_self s rest)
      have hadd : NFloat.add (.fin a) (.fin q) = .fin (a + q) := rfl
      obtain ⟨m, hm, hb⟩ := ih (a + q) (fun t ht => hall t (List.mem_cons_of_mem _ ht))
      refine ⟨m, by simpa [List.foldl_cons, hadd] using hm, ?_⟩
      have hlen : (0 : ℚ) ≤ (rest.length : ℚ) := by positivity
      simp only [List.length_cons]
      push_cast
      linarith

/-- the mean of a nonempty list of finite values is finite. -/
lemma npMean_fin_list (l : List NFloat) (hne : l ≠ [])
    (hfin : ∀ s ∈ l, ∃ q : ℚ, s = .fin q) :
    ∃ m : ℚ, npMean l = .fin m := by
  obtain ⟨m, hm⟩ := foldl_add_fin l 0 hfin
  have hlen : ((l.length : ℚ)) ≠ 0 :=
    Nat.cast_ne_zero.mpr (fun h0 => hne (List.length_eq_zero.mp h0))
  refine ⟨m / l.length, ?_⟩
  rw [npMean, hm]
  simp [NFloat.div, hlen]

/-- the mean of a nonempty list of slopes all below `-3/10` is finite and
negative. -/
lemma npMean_neg (l : List NFloat) (hne : l ≠ [])
    (hs : ∀ s ∈ l, ∃ q : ℚ, s = .fin q ∧ q < -(3/10)) :
    ∃ m : ℚ, npMean l = .fin m ∧ m < 0 := by
  obtain ⟨m, hm, hb⟩ := foldl_add_neg l 0 hs
  have hlpos : 0 < l.length := List.length_pos.mpr hne
  have hlq : (0 : ℚ) < l.length := by exact_mod_cast hlpos
  have hmneg : m < 0 := by nlinarith
  refine ⟨m / l.length, ?_, div_neg_of_neg_of_pos hmneg hlq⟩
  rw [npMean, hm]
  simp [NFloat.div, ne_of_gt hlq]

/-- a finite boundary computation with a nonzero slope succeeds. -/
lemma lineX_fin_ok (c mi ms : ℚ) (hms : ms ≠ 0) :
    ∃ v : ℤ, lineX (.fin c) (.fin mi) (.fin ms) = .ok v := by
  have hsub : NFloat.sub (.fin c) (.fin mi) = .fin (c - mi) := by
    simp [NFloat.sub, NFloat.add, NFloat.neg, sub_eq_add_neg]
  have hdiv : NFloat.div (.fin (c - mi)) (.fin ms) = .fin ((c - mi) / ms) := by
    simp [NFloat.div, hms]
  rw [lineX, hsub, hdiv]
  exact ⟨_, rfl⟩

/-- elements of the trailing slice come from the list. -/
lemma last30_subset (l : List NFloat) : ∀ s ∈ last30 l, s ∈ l :=
  fun s hs => List.drop_subset _ l hs

/-- the trailing slice of a nonempty list is nonempty. -/
lemma last30_ne_nil (l : List NFloat) (h : l ≠ []) : last30 l ≠ [] := by
  intro hc
  have h1 : (last30 l).length = 0 := by rw [hc]; rfl
  rw [last30, List.length_drop] at h1
  have h0 : l.length = 0 := by omega
  exact h (List.length_eq_zero.mp h0)

/-- an empty left slope list drives the whole try-block into the caught
ValueError before anything is assigned: the estimate is `[None, None]`. -/
lemma drawLinesEstimate_leftSlope_nil (b : Buffers) (h : ℚ)
    (hnil : b.leftSlope = []) : drawLinesEstimate b h = .ok (none, none) := by
  rw [drawLinesEstimate]
  have hmean : npMean (last30 b.leftSlope) = .nan := by
    rw [hnil]
    norm_num [npMean, last30, NFloat.div]
  rw [hmean, estimateCore, lineX_slope_nan]

/-- C7.  An empty trailing buffer yields the explicit absent value, never a
numeric NaN: with the left slope buffer empty the estimate is
`[None, None]`; with the right slope buffer empty (and the left buffers
holding what the classifier puts there: finite slopes below `-0.3` and
finite intercepts) the returned pair has an absent right component, while
the components themselves are integers by construction — `int()` turns a
NaN mean into the caught ValueError, not into a NaN result. -/
theorem emptyBufferAbsentEstimate :
    (∀ (b : Buffers) (h : ℚ), b.leftSlope = [] →
      drawLinesEstimate b h = .ok (none, none)) ∧
    (∀ (b : Buffers) (h : ℚ), b.rightSlope = [] →
      (∀ s ∈ b.leftSlope, ∃ q : ℚ, s = .fin q ∧ q < -(3/10)) →
      (∀ s ∈ b.leftIntercept, ∃ q : ℚ, s = .fin q) →
      ∃ o : Option ℤ, drawLinesEstimate b h = .ok (o, none)) := by
  refine ⟨fun b h hnil => drawLinesEstimate_leftSlope_nil b h hnil, ?_⟩
  intro b h hrnil hls hli
  rcases eq_or_ne b.leftSlope [] with hlnil | hlne
  · exact ⟨none, drawLinesEstimate_leftSlope_nil b h hlnil⟩
  rcases eq_or_ne b.leftIntercept [] with hinil | hine
  · refine ⟨none, ?_⟩
    rw [drawLinesEstimate]
    have hmi : npMean (last30 b.leftIntercept) = .nan := by
      rw [hinil]
      norm_num [npMean, last30, NFloat.div]
    rw [hmi, estimateCore, lineX_intercept_nan]
  · obtain ⟨ms, hms, hmsneg⟩ := npMean_neg (last30 b.leftSlope) (last30_ne_nil _ hlne)
      (fun s hs => hls s (last30_subset _ s hs))
    obtain ⟨mi, hmi⟩ := npMean_fin_list (last30 b.leftIntercept) (last30_ne_nil _ hine)
      (fun s hs => hli s (last30_subset _ s hs))
    obtain ⟨v1, hv1⟩ := lineX_fin_ok (65/100 * h) mi ms (ne_of_lt hmsneg)
    obtain ⟨v2, hv2⟩ := lineX_fin_ok h mi ms (ne_of_lt hmsneg)
    have hras : npMean (last30 b.rightSlope) = .nan := by
      rw [hrnil]
      norm_num [npMean, last30, NFloat.div]
    refine ⟨some v1, ?_⟩
    rw [drawLinesEstimate, hms, hmi, hras, estimateCore, hv1, hv2, lineX_slope_nan]
